import Mathlib

/-!
Shallow embedding of `src/8. 기타/1. vector 메모리 재할당 시에 멤버 복사 vs
Pimpl 이동.cpp`: a micro-benchmark comparing growth of `vector<WidgetImpl>`
(direct value storage) with `vector<Widget>` (Pimpl handles owning a
heap-allocated `WidgetImpl` through `unique_ptr`).

Modelling choices:
* `double` values are modelled by `ℚ` (written `D` below).  The program
  performs no floating-point arithmetic: doubles are only stored, copied and
  (in the spec's properties) compared, so any infinite type with a `0`
  faithfully represents the observable behaviour.
* The member `double arr[10]` of `WidgetImpl` is default-initialized in every
  constructor (the init-lists never mention it) and never assigned by
  `operator=`; in C++ its contents are therefore indeterminate.  We model the
  indeterminate contents as an explicit `junk : List D` argument supplied by
  the environment at each construction.
* Heap allocation (`make_unique`) is modelled by an explicit heap: an
  association list from addresses (`Nat`) to `WidgetImpl` payloads together
  with a fresh-address counter.  `unique_ptr<WidgetImpl>` is an
  `Option Nat` (null or an owned address).
* Undefined behaviour (dereferencing a null `unique_ptr` in
  `Widget::operator=`) is modelled by `Option`: `none` means the operation
  falls outside its defined domain.
-/

abbrev D := ℚ

/-- The default `name` argument of both constructors in the source. -/
def defaultName : String := "AAAAAAAAAAAAAABBBBBBBBBBB"

/-- `class WidgetImpl`: one `int`, three `double`s, a `string` and a
fixed-size array of 10 doubles (`arr`, modelled as a `List D`). -/
structure WidgetImpl where
  i : Int
  b : D
  c : D
  d : D
  name : String
  arr : List D
deriving DecidableEq

namespace WidgetImpl

/-- The five-argument constructor `WidgetImpl(int, double, double, double,
string)`.  Its init-list sets `i, b, c, d, name`; `arr` is left
default-initialized, i.e. holds the indeterminate contents `junk`. -/
def ctor (junk : List D) (i : Int) (b c d : D) (nm : String) : WidgetImpl :=
  ⟨i, b, c, d, nm, junk⟩

/-- The call `WidgetImpl(i)` with all defaulted arguments:
`b = c = d = 0.0`, `name = "AAAAAAAAAAAAAABBBBBBBBBBB"`. -/
def fromInt (junk : List D) (i : Int) : WidgetImpl :=
  ctor junk i 0 0 0 defaultName

/-- The copy constructor `WidgetImpl(const WidgetImpl&)`: copies
`i, b, c, d, name`; `arr` is not in its init-list, so the new object's
array again holds indeterminate contents `junk`. -/
def copyCtor (junk : List D) (rhs : WidgetImpl) : WidgetImpl :=
  ⟨rhs.i, rhs.b, rhs.c, rhs.d, rhs.name, junk⟩

/-- `WidgetImpl::operator=`: assigns `i, b, c, d, name` and leaves the
target's `arr` untouched. -/
def assign (lhs rhs : WidgetImpl) : WidgetImpl :=
  { lhs with i := rhs.i, b := rhs.b, c := rhs.c, d := rhs.d, name := rhs.name }

/-- Mutating the text field of a record (used by the spec's aliasing
scenario). -/
def setName (w : WidgetImpl) (s : String) : WidgetImpl :=
  { w with name := s }

/-- Field agreement on everything except the never-copied array `arr`. -/
def agreesExceptArr (x y : WidgetImpl) : Prop :=
  x.i = y.i ∧ x.b = y.b ∧ x.c = y.c ∧ x.d = y.d ∧ x.name = y.name

instance : DecidablePred fun p : WidgetImpl × WidgetImpl => agreesExceptArr p.1 p.2 :=
  fun _ => by unfold agreesExceptArr; infer_instance

end WidgetImpl

/-- The heap holding every `WidgetImpl` created by `make_unique`: an
association list from addresses to payloads, plus the next fresh address. -/
structure Heap where
  next : Nat
  mem : List (Nat × WidgetImpl)
deriving DecidableEq

namespace Heap

def empty : Heap := ⟨0, []⟩

/-- Dereferencing an address: `none` when the cell is not allocated. -/
def get (h : Heap) (a : Nat) : Option WidgetImpl :=
  (h.mem.find? fun p => p.1 == a).map Prod.snd

/-- `make_unique<WidgetImpl>(...)`: allocate a fresh cell, returning the new
heap and the fresh address. -/
def alloc (h : Heap) (w : WidgetImpl) : Heap × Nat :=
  (⟨h.next + 1, (h.next, w) :: h.mem⟩, h.next)

/-- Releasing a cell (`unique_ptr` destructor / reassignment). -/
def free (h : Heap) (a : Nat) : Heap :=
  ⟨h.next, h.mem.filter fun p => p.1 != a⟩

/-- Heap well-formedness: allocated addresses are distinct and below the
fresh-address counter. -/
def wf (h : Heap) : Prop :=
  (∀ p ∈ h.mem, p.1 < h.next) ∧ (h.mem.map Prod.fst).Nodup

instance : DecidablePred wf := fun h => by unfold wf; infer_instance

end Heap

/-- `class Widget`: a handle holding `unique_ptr<WidgetImpl> pimpl`,
modelled as `none` (null) or `some` owned address. -/
structure Widget where
  pimpl : Option Nat
deriving DecidableEq

namespace Widget

/-- The five-argument constructor `Widget(int, double, double, double,
string)`: `pimpl(make_unique<WidgetImpl>(i, b, c, d, name))`.  The freshly
allocated payload's `arr` holds indeterminate contents `junk`. -/
def ctor (h : Heap) (junk : List D) (i : Int) (b c d : D) (nm : String) :
    Heap × Widget :=
  let p := h.alloc (WidgetImpl.ctor junk i b c d nm)
  (p.1, ⟨some p.2⟩)

/-- The call `Widget(i)` with all defaulted arguments. -/
def fromInt (h : Heap) (junk : List D) (i : Int) : Heap × Widget :=
  ctor h junk i 0 0 0 defaultName

/-- The move constructor `Widget(Widget&& rhs) : pimpl(move(rhs.pimpl))`.
Returns (heap, destination, source-after-move): `unique_ptr`'s move transfers
the address and nulls the source.  The heap is passed through untouched —
no allocation, no payload access. -/
def moveCtor (h : Heap) (rhs : Widget) : Heap × Widget × Widget :=
  (h, ⟨rhs.pimpl⟩, ⟨none⟩)

/-- `Widget::operator=`: reads `rhs.pimpl->i, ->b, ->c, ->d, ->name` with no
null check (UB — `none` — when `rhs.pimpl` is null or dangling), builds a new
payload with `make_unique` (its `arr` is again indeterminate `junk`), then the
`unique_ptr` assignment releases the target's old payload.  Returns the new
heap and the updated target handle. -/
def assign (h : Heap) (junk : List D) (lhs rhs : Widget) :
    Option (Heap × Widget) :=
  match rhs.pimpl with
  | none => none
  | some ra =>
    match h.get ra with
    | none => none
    | some rimpl =>
      let p := h.alloc
        (WidgetImpl.ctor junk rimpl.i rimpl.b rimpl.c rimpl.d rimpl.name)
      let h2 := match lhs.pimpl with
        | none => p.1
        | some la => p.1.free la
      some (h2, ⟨some p.2⟩)

/-- `Widget`'s (implicit) destructor: `unique_ptr` releases the owned payload
when non-null. -/
def destroy (h : Heap) (w : Widget) : Heap :=
  match w.pimpl with
  | none => h
  | some a => h.free a

end Widget

/-! ## The benchmark loops

`for (int i = 0; i < N; ++i) vw.push_back(WidgetImpl(i));` and the analogous
loop over `vector<Widget>`.  Vectors are modelled by lists of their element
values; `push_back` appends.  `junkF k` supplies the indeterminate array
contents of the record constructed in iteration `k`. -/

/-- The direct-value loop: after `n` iterations the vector holds the records
`WidgetImpl(0), …, WidgetImpl(n-1)` in order. -/
def appendLoopW (junkF : Nat → List D) (n : Nat) : List WidgetImpl :=
  (List.range n).map fun k => WidgetImpl.fromInt (junkF k) (Int.ofNat k)

/-- Vector growth relocating elements of `vector<WidgetImpl>`: since the move
constructor is not `noexcept`, reallocation copy-constructs every element into
the new storage (each copy's `arr` is fresh indeterminate contents). -/
def reallocCopy (junkF : Nat → List D) (l : List WidgetImpl) : List WidgetImpl :=
  l.mapIdx fun k w => WidgetImpl.copyCtor (junkF k) w

/-- The Pimpl loop: after `n` iterations, the heap has grown by `n` payloads
and the vector holds `n` handles.  Each `push_back(Widget(i))` constructs a
temporary (allocating its payload) and moves the handle into the vector. -/
def appendLoopP (h0 : Heap) (junkF : Nat → List D) (n : Nat) :
    Heap × List Widget :=
  (List.range n).foldl
    (fun acc k =>
      let p := Widget.fromInt acc.1 (junkF k) (Int.ofNat k)
      (p.1, acc.2 ++ [p.2]))
    (h0, [])

/-! ## The aliasing scenario

`vw[0] = vw[1]` after three pushes, and (from the spec's test property)
a subsequent mutation of element 1's text field. -/

/-- `l[dst] = l[src]` on a `vector<WidgetImpl>`: reads both elements and
stores `WidgetImpl::operator=`'s result back at `dst`; out-of-range indices
leave the vector unchanged (the source only uses in-range ones). -/
def overwriteFrom (l : List WidgetImpl) (dst src : Nat) : List WidgetImpl :=
  match l.get? dst, l.get? src with
  | some a, some b => l.set dst (WidgetImpl.assign a b)
  | _, _ => l

/-- The spec's scenario: push records for `i = 0, 1, 2`, then `v[0] = v[1]`.
`j0 j1 j2` are the indeterminate array contents of the three records. -/
def scenarioOverwrite (j0 j1 j2 : List D) : List WidgetImpl :=
  overwriteFrom
    [WidgetImpl.fromInt j0 0, WidgetImpl.fromInt j1 1, WidgetImpl.fromInt j2 2]
    0 1

/-! ## Ownership worlds

For the ownership invariant we track the heap together with all live
`Widget` handles.  Each primitive operation of the source acts on such a
world: constructing a fresh handle, move-constructing from an existing
handle, copy-assigning one handle from another, destroying a handle. -/

/-- A world: the heap plus every live `Widget` handle. -/
structure World where
  heap : Heap
  ws : List Widget
deriving DecidableEq

/-- The addresses currently owned by some live handle. -/
def ownedAddrs (ws : List Widget) : List Nat :=
  ws.filterMap Widget.pimpl

/-- The spec's invariant: the heap is well-formed, every non-null handle
points to an allocated (fully-constructed) payload, and no two handles own
the same payload (unique ownership). -/
def WInv (w : World) : Prop :=
  w.heap.wf ∧ (∀ a ∈ ownedAddrs w.ws, (w.heap.get a).isSome = true) ∧
    (ownedAddrs w.ws).Nodup

instance : DecidablePred WInv := fun w => by unfold WInv; infer_instance

namespace World

/-- Construct a fresh `Widget(i)` and add it to the world. -/
def pushFresh (w : World) (junk : List D) (i : Int) : World :=
  let p := Widget.fromInt w.heap junk i
  ⟨p.1, w.ws ++ [p.2]⟩

/-- Move-construct a new handle from the handle at the head of the list;
the source stays alive in its moved-from (null) state. -/
def moveHead (w : World) : World :=
  match w.ws with
  | [] => w
  | src :: rest =>
    let t := Widget.moveCtor w.heap src
    ⟨t.1, t.2.2 :: t.2.1 :: rest⟩

/-- Copy-assign the first handle from the second (two distinct live
handles, as in `vpimpl[0] = vpimpl[1]`); `none` when the source handle
is null or dangling (undefined behaviour). -/
def assignHead (w : World) (junk : List D) : Option World :=
  match w.ws with
  | lhs :: rhs :: rest =>
    (Widget.assign w.heap junk lhs rhs).map fun p => ⟨p.1, p.2 :: rhs :: rest⟩
  | _ => none

/-- Destroy the handle at the head of the list, releasing its payload. -/
def destroyHead (w : World) : World :=
  match w.ws with
  | [] => w
  | x :: rest => ⟨Widget.destroy w.heap x, rest⟩

end World

/-! ## The whole program

`main` ignores `argc`/`argv`, runs the warm-up pushes and the two
`v[0] = v[1]` assignments, clears both vectors, runs the two timed
3,000,000-append loops, prints one elapsed-seconds line per loop and
returns 0.  Wall-clock readings are external inputs: `d1` and `d2` are the
two measured durations, rendered exactly as the source prints them
(`count()` followed by `" 초"`).  `junkF` supplies every indeterminate
array content the run consumes.  The result is `none` only if the program
hits undefined behaviour (it does not: both assignments have non-null
sources). -/

/-- Observable outcome of a program run: the printed lines and the exit
status. -/
structure ProgOut where
  lines : List String
  exitCode : Nat
deriving DecidableEq

/-- `vector<Widget>::clear()`: destroys every element, releasing the owned
payloads. -/
def clearWidgets (h : Heap) (ws : List Widget) : Heap :=
  ws.foldl Widget.destroy h

def mainModel (args : List String) (d1 d2 : D) (junkF : Nat → List D) :
    Option ProgOut :=
  let w1 := WidgetImpl.fromInt (junkF 0) 1
  let w2 := WidgetImpl.fromInt (junkF 1) 2
  let w3 := WidgetImpl.fromInt (junkF 2) 3
  let vw := overwriteFrom [w1, w2, w3] 0 1
  let p1 := Widget.fromInt Heap.empty (junkF 3) 1
  let p2 := Widget.fromInt p1.1 (junkF 4) 2
  let p3 := Widget.fromInt p2.1 (junkF 5) 3
  let vpimpl := [p1.2, p2.2, p3.2]
  match Widget.assign p3.1 (junkF 6) p1.2 p2.2 with
  | none => none
  | some q =>
    let vpimpl2 := [q.2, p2.2, p3.2]
    let vwCleared : List WidgetImpl := []
    let hCleared := clearWidgets q.1 vpimpl2
    let timedW := appendLoopW (fun k => junkF (7 + k)) 3000000
    let timedP := appendLoopP hCleared (fun k => junkF (3000007 + k)) 3000000
    some ⟨[toString d1 ++ " 초", toString d2 ++ " 초"], 0⟩

/-- Mutating the text field of element `k` of a `vector<WidgetImpl>` (the
spec's aliasing probe); out-of-range indices leave the vector unchanged. -/
def mutateNameAt (l : List WidgetImpl) (k : Nat) (s : String) :
    List WidgetImpl :=
  match l.get? k with
  | some w => l.set k (w.setName s)
  | none => l

/-- Concrete indeterminate array contents used in witnesses and
counterexamples. -/
def tenZeros : List D := List.replicate 10 0

/-- A second, different concrete choice of indeterminate contents. -/
def tenOnes : List D := List.replicate 10 1

/-! ## Heap lemmas -/

namespace Heap

theorem get_alloc_self (h : Heap) (w : WidgetImpl) :
    (h.alloc w).1.get (h.alloc w).2 = some w := by
  simp [alloc, get, List.find?_cons_of_pos]

theorem get_alloc_ne (h : Heap) (w : WidgetImpl) {a : Nat} (ha : a ≠ h.next) :
    (h.alloc w).1.get a = h.get a := by
  have hb : ((h.next, w).1 == a) = false := by
    simp [beq_eq_false_iff_ne]
    exact fun he => ha he.symm
  simp [alloc, get, List.find?_cons_of_neg, hb]

theorem find?_filter_key (l : List (Nat × WidgetImpl)) {a b : Nat}
    (hab : a ≠ b) :
    ((l.filter fun p => p.1 != b).find? fun p => p.1 == a) =
      (l.find? fun p => p.1 == a) := by
  induction l with
  | nil => rfl
  | cons x t ih =>
    rcases eq_or_ne x.1 a with hxa | hxa
    · have h1 : (x.1 != b) = true := by simp [hxa, hab]
      have h2 : (x.1 == a) = true := by simp [hxa]
      simp [List.filter_cons, h1, List.find?_cons_of_pos, h2]
    · have h2 : (x.1 == a) = false := by simp [hxa]
      rcases eq_or_ne x.1 b with hxb | hxb
      · have h1 : (x.1 != b) = false := by simp [hxb]
        simp [List.filter_cons, h1, List.find?_cons_of_neg, h2, ih]
      · have h1 : (x.1 != b) = true := by simp [hxb]
        simp [List.filter_cons, h1, List.find?_cons_of_neg, h2, ih]

theorem get_free_ne (h : Heap) {a b : Nat} (hab : a ≠ b) :
    (h.free b).get a = h.get a := by
  simp [free, get, find?_filter_key _ hab]

theorem wf_alloc {h : Heap} (hw : h.wf) (w : WidgetImpl) : (h.alloc w).1.wf := by
  obtain ⟨hlt, hnd⟩ := hw
  constructor
  · intro p hp
    rcases List.mem_cons.mp hp with hp | hp
    · simp [hp, alloc]
    · exact Nat.lt_succ_of_lt (hlt p hp)
  · refine List.nodup_cons.mpr ⟨?_, hnd⟩
    intro hmem
    rcases List.mem_map.mp hmem with ⟨p, hp, hp1⟩
    exact absurd (hp1 ▸ hlt p hp) (lt_irrefl _)

theorem wf_free {h : Heap} (hw : h.wf) (a : Nat) : (h.free a).wf := by
  obtain ⟨hlt, hnd⟩ := hw
  refine ⟨fun p hp => hlt p (List.mem_of_mem_filter hp), ?_⟩
  exact List.Nodup.sublist (List.Sublist.map _ (List.filter_sublist _)) hnd

theorem lt_next_of_get_isSome {h : Heap} (hw : h.wf) {a : Nat}
    (hs : (h.get a).isSome = true) : a < h.next := by
  unfold get at hs
  cases hfind : h.mem.find? fun p => p.1 == a with
  | none => rw [hfind] at hs; simp at hs
  | some p =>
    have hmem := List.mem_of_find?_eq_some hfind
    have hpa : p.1 = a := by simpa using List.find?_some hfind
    exact hpa ▸ hw.1 p hmem

end Heap

/-! ## Owned-address lemmas -/

theorem ownedAddrs_nil : ownedAddrs [] = [] := rfl

theorem ownedAddrs_cons (w : Widget) (t : List Widget) :
    ownedAddrs (w :: t) = w.pimpl.toList ++ ownedAddrs t := by
  cases w with
  | mk o => cases o <;> simp [ownedAddrs, List.filterMap_cons]

theorem ownedAddrs_append (l1 l2 : List Widget) :
    ownedAddrs (l1 ++ l2) = ownedAddrs l1 ++ ownedAddrs l2 := by
  simp [ownedAddrs, List.filterMap_append]

/-! ## Benchmark-loop lemmas -/

theorem appendLoopP_go_length (junkF : Nat → List D) (l : List Nat)
    (st : Heap × List Widget) :
    ((l.foldl
      (fun acc k =>
        let p := Widget.fromInt acc.1 (junkF k) (Int.ofNat k)
        (p.1, acc.2 ++ [p.2]))
      st).2).length = st.2.length + l.length := by
  induction l generalizing st with
  | nil => simp
  | cons x t ih =>
    rw [List.foldl_cons, ih]
    simp
    omega

theorem reallocCopy_map_i (junkF : Nat → List D) (l : List WidgetImpl) :
    (reallocCopy junkF l).map WidgetImpl.i = l.map WidgetImpl.i := by
  unfold reallocCopy
  induction l generalizing junkF with
  | nil => rfl
  | cons x t ih =>
    rw [List.mapIdx_cons]
    simp only [List.map_cons]
    exact congrArg _ (ih _)

/-! ## Claim theorems -/

/-- C3: for both storage strategies (direct `vector<WidgetImpl>` and
Pimpl `vector<Widget>`), appending `n` freshly constructed records one at a
time to an initially empty container yields a container of length exactly
`n` — in particular at the harness's count 3,000,000, and from any starting
heap for the Pimpl strategy. -/
theorem append_yields_exact_length (junkF : Nat → List D) (n : Nat)
    (h0 : Heap) :
    (appendLoopW junkF n).length = n ∧ (appendLoopP h0 junkF n).2.length = n :=
  ⟨by simp [appendLoopW],
   by rw [appendLoopP, appendLoopP_go_length]; simp⟩

/-- C4: after the timed loop appends records constructed from `i = 0..n-1`
to the direct-value container, element `k` (0-indexed) holds a record whose
integer field is exactly `k`, for every `k < n`; moreover a growth
reallocation (which copy-constructs every element because the move
constructor is not `noexcept`) preserves every element's integer field. -/
theorem append_readback_int :
    (∀ (junkF : Nat → List D) (n k : Nat), k < n →
      ((appendLoopW junkF n)[k]?).map WidgetImpl.i = some (Int.ofNat k)) ∧
    (∀ (junkF : Nat → List D) (l : List WidgetImpl),
      (reallocCopy junkF l).map WidgetImpl.i = l.map WidgetImpl.i) := by
  constructor
  · intro junkF n k hk
    rw [appendLoopW, List.getElem?_map, List.getElem?_range hk]
    rfl
  · exact reallocCopy_map_i

/-- C4 witness: at `n = 3`, reading back element 1 yields integer field 1. -/
theorem append_readback_int_witness :
    ((appendLoopW (fun _ => tenZeros) 3)[1]?).map WidgetImpl.i =
      some (Int.ofNat 1) :=
  append_readback_int.1 (fun _ => tenZeros) 3 1 (by decide)

/-- C2: move-constructing a `Widget` transfers ownership only: afterwards
the source handle owns no payload (`pimpl = none`), the destination handle
owns the original payload at its original address `a`, the heap is untouched
(no new allocation) and the payload stored at `a` is unchanged (no field
copy). -/
theorem move_transfers_ownership (h : Heap) (rhs : Widget) (a : Nat)
    (ha : rhs.pimpl = some a) :
    (Widget.moveCtor h rhs).1 = h ∧
    (Widget.moveCtor h rhs).2.1.pimpl = some a ∧
    (Widget.moveCtor h rhs).2.2.pimpl = none ∧
    (Widget.moveCtor h rhs).1.get a = h.get a :=
  ⟨rfl, by simpa [Widget.moveCtor] using ha, rfl, rfl⟩

/-- C2 witness: moving from a handle owning the payload at address 0 of a
one-cell heap. -/
theorem move_transfers_ownership_witness :
    (Widget.moveCtor (Widget.fromInt Heap.empty tenZeros 7).1 ⟨some 0⟩).1 =
      (Widget.fromInt Heap.empty tenZeros 7).1 ∧
    (Widget.moveCtor (Widget.fromInt Heap.empty tenZeros 7).1
        ⟨some 0⟩).2.1.pimpl = some 0 ∧
    (Widget.moveCtor (Widget.fromInt Heap.empty tenZeros 7).1
        ⟨some 0⟩).2.2.pimpl = none ∧
    (Widget.moveCtor (Widget.fromInt Heap.empty tenZeros 7).1 ⟨some 0⟩).1.get 0 =
      (Widget.fromInt Heap.empty tenZeros 7).1.get 0 :=
  move_transfers_ownership (Widget.fromInt Heap.empty tenZeros 7).1 ⟨some 0⟩ 0
    rfl

/-- C10: `Widget::operator=` dereferences the source handle with no null
check: from a null (moved-from) source the operation falls outside its
defined domain (modelled `none`), while under the precondition that the
source owns an allocated payload the dereference is safe and the assignment
always produces a result (the error branch is unreachable). -/
theorem assign_source_domain :
    (∀ (h : Heap) (junk : List D) (lhs rhs : Widget), rhs.pimpl = none →
      Widget.assign h junk lhs rhs = none) ∧
    (∀ (h : Heap) (junk : List D) (lhs rhs : Widget) (ra : Nat)
      (rimpl : WidgetImpl), rhs.pimpl = some ra → h.get ra = some rimpl →
      (Widget.assign h junk lhs rhs).isSome = true) := by
  constructor
  · intro h junk lhs rhs hr
    simp [Widget.assign, hr]
  · intro h junk lhs rhs ra rimpl hr hg
    cases hl : lhs.pimpl <;> simp [Widget.assign, hr, hg, hl]

/-- C10 witness: assigning from a handle owning address 0 of a one-cell heap
succeeds; the null-source case is evaluated at a concrete heap as well. -/
theorem assign_source_domain_witness :
    (Widget.assign (Widget.fromInt Heap.empty tenOnes 5).1 tenZeros ⟨none⟩
        ⟨some 0⟩).isSome = true ∧
    Widget.assign (Widget.fromInt Heap.empty tenOnes 5).1 tenZeros ⟨none⟩
        ⟨none⟩ = none :=
  ⟨assign_source_domain.2 (Widget.fromInt Heap.empty tenOnes 5).1 tenZeros
      ⟨none⟩ ⟨some 0⟩ 0 (WidgetImpl.fromInt tenOnes 5) rfl (by decide),
   assign_source_domain.1 (Widget.fromInt Heap.empty tenOnes 5).1 tenZeros
      ⟨none⟩ ⟨none⟩ rfl⟩

/-- C7 counterexample: the claim's fixed-default reading of the 10-element
array is false — two constructions from the same integer yield records whose
arrays hold whatever indeterminate contents the environment supplies, so the
records are not equal and no fixed default fills the array. -/
theorem ctor_array_no_fixed_default :
    WidgetImpl.fromInt tenOnes 0 ≠ WidgetImpl.fromInt tenZeros 0 := by
  decide

/-- C7 (amended): constructing a record from `i` (of either kind — the
`Widget` constructor allocates a payload built by the same `WidgetImpl`
constructor) yields integer field `i`, the three floating-point fields 0.0
and the fixed default text; the 10-element array is default-initialized,
i.e. holds the indeterminate pre-existing contents `junk`, not a fixed
default. -/
theorem ctor_defaults (h : Heap) (junk : List D) (i : Int) :
    (WidgetImpl.fromInt junk i).i = i ∧
    (WidgetImpl.fromInt junk i).b = 0 ∧
    (WidgetImpl.fromInt junk i).c = 0 ∧
    (WidgetImpl.fromInt junk i).d = 0 ∧
    (WidgetImpl.fromInt junk i).name = defaultName ∧
    (WidgetImpl.fromInt junk i).arr = junk ∧
    (Widget.fromInt h junk i).2.pimpl = some h.next ∧
    (Widget.fromInt h junk i).1.get h.next = some (WidgetImpl.fromInt junk i) :=
  ⟨rfl, rfl, rfl, rfl, rfl, rfl, rfl,
   Heap.get_alloc_self h (WidgetImpl.fromInt junk i)⟩

/-- A concrete two-cell heap: the payload at address 0 (a source payload
whose array holds ones) and the payload at address 1 (a target's old
payload). -/
def twoCellHeap : Heap :=
  (Widget.fromInt (Widget.fromInt Heap.empty tenOnes 5).1 tenZeros 9).1

/-- C1 counterexample: copy-assigning a `Widget` does not duplicate the
10-element array — the new payload's array holds fresh indeterminate
contents (here zeros), not the source's (here ones), so the copied payload
is not value-equal to the source payload field for field. -/
theorem widget_copy_array_not_copied :
    ((Widget.assign (Widget.fromInt Heap.empty tenOnes 5).1 tenZeros ⟨none⟩
        (Widget.fromInt Heap.empty tenOnes 5).2).bind fun p => p.1.get 1) ≠
      (Widget.fromInt Heap.empty tenOnes 5).1.get 0 := by
  decide

/-- C1 (amended): copy-assigning a `Widget` from a handle owning payload
`rimpl` at address `ra` allocates a new payload at the fresh address
`h.next ≠ ra`; the new payload duplicates the source's integer, three
floating-point and text fields (but its array holds fresh indeterminate
contents `junk`, not a copy), and the source's payload is unchanged.
Preconditions: the heap is well-formed, the target handle is null or owns a
valid payload, and the target does not alias the source's payload. -/
theorem widget_copy_deep (h : Heap) (junk : List D) (lhs rhs : Widget)
    (ra : Nat) (rimpl : WidgetImpl) (hw : h.wf) (hr : rhs.pimpl = some ra)
    (hg : h.get ra = some rimpl) (hne : lhs.pimpl ≠ some ra)
    (hlv : ∀ la, lhs.pimpl = some la → (h.get la).isSome = true) :
    ∃ h2 : Heap,
      Widget.assign h junk lhs rhs = some (h2, ⟨some h.next⟩) ∧
      h.next ≠ ra ∧
      h2.get h.next = some (WidgetImpl.ctor junk rimpl.i rimpl.b rimpl.c
        rimpl.d rimpl.name) ∧
      (WidgetImpl.ctor junk rimpl.i rimpl.b rimpl.c rimpl.d
        rimpl.name).agreesExceptArr rimpl ∧
      h2.get ra = some rimpl := by
  have hra_lt : ra < h.next := Heap.lt_next_of_get_isSome hw (by simp [hg])
  have hra_ne : h.next ≠ ra := ne_of_gt hra_lt
  cases hl : lhs.pimpl with
  | none =>
    refine ⟨(h.alloc (WidgetImpl.ctor junk rimpl.i rimpl.b rimpl.c rimpl.d
      rimpl.name)).1, ?_, hra_ne, ?_, ⟨rfl, rfl, rfl, rfl, rfl⟩, ?_⟩
    · simp [Widget.assign, hr, hg, hl, Heap.alloc]
    · exact Heap.get_alloc_self h _
    · rw [Heap.get_alloc_ne h _ (ne_of_lt hra_lt)]
      exact hg
  | some la =>
    have hla_s : (h.get la).isSome = true := hlv la hl
    have hla_lt : la < h.next := Heap.lt_next_of_get_isSome hw hla_s
    have hla_ne_ra : la ≠ ra := fun he => hne (he ▸ hl)
    refine ⟨((h.alloc (WidgetImpl.ctor junk rimpl.i rimpl.b rimpl.c rimpl.d
      rimpl.name)).1).free la, ?_, hra_ne, ?_, ⟨rfl, rfl, rfl, rfl, rfl⟩, ?_⟩
    · simp [Widget.assign, hr, hg, hl, Heap.alloc]
    · rw [Heap.get_free_ne _ (ne_of_gt hla_lt)]
      exact Heap.get_alloc_self h _
    · rw [Heap.get_free_ne _ (Ne.symm hla_ne_ra),
        Heap.get_alloc_ne h _ (ne_of_lt hra_lt)]
      exact hg

/-- C1 witness: on the concrete two-cell heap, assigning the handle owning
address 1 from the handle owning address 0. -/
theorem widget_copy_deep_witness :
    ∃ h2 : Heap,
      Widget.assign twoCellHeap tenZeros ⟨some 1⟩ ⟨some 0⟩ =
        some (h2, ⟨some twoCellHeap.next⟩) ∧
      twoCellHeap.next ≠ 0 ∧
      h2.get twoCellHeap.next = some (WidgetImpl.ctor tenZeros
        (WidgetImpl.fromInt tenOnes 5).i (WidgetImpl.fromInt tenOnes 5).b
        (WidgetImpl.fromInt tenOnes 5).c (WidgetImpl.fromInt tenOnes 5).d
        (WidgetImpl.fromInt tenOnes 5).name) ∧
      (WidgetImpl.ctor tenZeros (WidgetImpl.fromInt tenOnes 5).i
        (WidgetImpl.fromInt tenOnes 5).b (WidgetImpl.fromInt tenOnes 5).c
        (WidgetImpl.fromInt tenOnes 5).d
        (WidgetImpl.fromInt tenOnes 5).name).agreesExceptArr
        (WidgetImpl.fromInt tenOnes 5) ∧
      h2.get 0 = some (WidgetImpl.fromInt tenOnes 5) :=
  widget_copy_deep twoCellHeap tenZeros ⟨some 1⟩ ⟨some 0⟩ 0
    (WidgetImpl.fromInt tenOnes 5) (by decide) rfl (by decide) (by decide)
    (by intro la hla; injection hla with he; subst he; decide)

/-- C6 counterexample: after the overwrite `v[0] = v[1]`, elements 0 and 1
are not field-equal on every field — `WidgetImpl::operator=` does not assign
the 10-element array, so the two elements' arrays keep their unrelated
indeterminate contents. -/
theorem overwrite_not_every_field_equal :
    (scenarioOverwrite tenZeros tenOnes tenZeros)[0]? ≠
      (scenarioOverwrite tenZeros tenOnes tenZeros)[1]? := by
  decide

/-- C6 (amended): in the scenario appending records for `i = 0, 1, 2` and
overwriting index 0 with a copy of index 1, elements 0 and 1 afterwards agree
on the integer, the three floating-point and the text fields (the
never-assigned array may differ), and subsequently mutating element 1's text
field leaves element 0 unchanged — the two elements share no storage. -/
theorem overwrite_agrees_no_alias (j0 j1 j2 : List D) (s : String) :
    (scenarioOverwrite j0 j1 j2)[0]? =
      some (WidgetImpl.assign (WidgetImpl.fromInt j0 0)
        (WidgetImpl.fromInt j1 1)) ∧
    (scenarioOverwrite j0 j1 j2)[1]? = some (WidgetImpl.fromInt j1 1) ∧
    (WidgetImpl.assign (WidgetImpl.fromInt j0 0)
        (WidgetImpl.fromInt j1 1)).agreesExceptArr (WidgetImpl.fromInt j1 1) ∧
    (mutateNameAt (scenarioOverwrite j0 j1 j2) 1 s)[0]? =
      (scenarioOverwrite j0 j1 j2)[0]? :=
  ⟨rfl, rfl, ⟨rfl, rfl, rfl, rfl, rfl⟩, rfl⟩

/-- C8: whenever no allocation fails (the model's allocation is total), a
run of the program prints exactly one elapsed-seconds line per measured
strategy — two lines total, rendered from the two wall-clock readings —
ignores the process arguments and exits with status 0. -/
theorem main_output_shape (args args2 : List String) (d1 d2 : D)
    (junkF : Nat → List D) :
    mainModel args d1 d2 junkF =
      some ⟨[toString d1 ++ " 초", toString d2 ++ " 초"], 0⟩ ∧
    (mainModel args d1 d2 junkF).map (fun o => o.lines.length) = some 2 ∧
    (mainModel args d1 d2 junkF).map ProgOut.exitCode = some 0 ∧
    mainModel args d1 d2 junkF = mainModel args2 d1 d2 junkF := by
  have key : mainModel args d1 d2 junkF =
      some ⟨[toString d1 ++ " 초", toString d2 ++ " 초"], 0⟩ := by
    rfl
  exact ⟨key, by simp [key], by simp [key], rfl⟩

/-! ## Ownership-invariant preservation (one lemma per operation) -/

theorem winv_perm (h : Heap) (ws ws2 : List Widget) (hp : List.Perm ws ws2)
    (hi : WInv ⟨h, ws⟩) : WInv ⟨h, ws2⟩ := by
  obtain ⟨hwf, hval, hnd⟩ := hi
  have hperm : List.Perm (ownedAddrs ws) (ownedAddrs ws2) :=
    hp.filterMap Widget.pimpl
  exact ⟨hwf, fun a ha => hval a (hperm.mem_iff.mpr ha), hnd.perm hperm⟩

theorem winv_pushFresh (w : World) (junk : List D) (i : Int) (hi : WInv w) :
    WInv (w.pushFresh junk i) := by
  obtain ⟨h, ws⟩ := w
  obtain ⟨hwf, hval, hnd⟩ := hi
  have hnotmem : h.next ∉ ownedAddrs ws := fun hmem =>
    absurd (Heap.lt_next_of_get_isSome hwf (hval _ hmem)) (lt_irrefl _)
  refine ⟨Heap.wf_alloc hwf _, ?_, ?_⟩
  · intro a ha
    rw [show (World.pushFresh ⟨h, ws⟩ junk i).ws =
      ws ++ [⟨some h.next⟩] from rfl] at ha
    rw [ownedAddrs_append] at ha
    rcases List.mem_append.mp ha with ha | ha
    · have hlt : a < h.next := Heap.lt_next_of_get_isSome hwf (hval a ha)
      rw [show (World.pushFresh ⟨h, ws⟩ junk i).heap =
        (h.alloc (WidgetImpl.fromInt junk i)).1 from rfl]
      rw [Heap.get_alloc_ne h _ (ne_of_lt hlt)]
      exact hval a ha
    · have haeq : a = h.next := by
        simpa [ownedAddrs, List.filterMap_cons] using ha
      subst haeq
      rw [show (World.pushFresh ⟨h, ws⟩ junk i).heap =
        (h.alloc (WidgetImpl.fromInt junk i)).1 from rfl]
      have hself : (h.alloc (WidgetImpl.fromInt junk i)).1.get h.next =
          some (WidgetImpl.fromInt junk i) :=
        Heap.get_alloc_self h (WidgetImpl.fromInt junk i)
      rw [hself]
      rfl
  · rw [show (World.pushFresh ⟨h, ws⟩ junk i).ws =
      ws ++ [⟨some h.next⟩] from rfl]
    rw [ownedAddrs_append]
    have hcons : (h.next :: ownedAddrs ws).Nodup :=
      List.nodup_cons.mpr ⟨hnotmem, hnd⟩
    exact hcons.perm (List.perm_append_singleton h.next (ownedAddrs ws)).symm

theorem winv_moveHead (w : World) (hi : WInv w) : WInv w.moveHead := by
  obtain ⟨h, ws⟩ := w
  obtain ⟨hwf, hval, hnd⟩ := hi
  cases ws with
  | nil => exact ⟨hwf, hval, hnd⟩
  | cons src rest =>
    have howned :
        ownedAddrs ((⟨none⟩ : Widget) :: (⟨src.pimpl⟩ : Widget) :: rest) =
          ownedAddrs (src :: rest) := by
      rw [ownedAddrs_cons, ownedAddrs_cons]
      rfl
    refine ⟨hwf, ?_, ?_⟩
    · intro a ha
      rw [show (World.moveHead ⟨h, src :: rest⟩).ws =
        ⟨none⟩ :: ⟨src.pimpl⟩ :: rest from rfl, howned] at ha
      exact hval a ha
    · rw [show (World.moveHead ⟨h, src :: rest⟩).ws =
        ⟨none⟩ :: ⟨src.pimpl⟩ :: rest from rfl, howned]
      exact hnd

theorem winv_assignHead (w w2 : World) (junk : List D) (hi : WInv w)
    (ha : w.assignHead junk = some w2) : WInv w2 := by
  obtain ⟨h, ws⟩ := w
  obtain ⟨hwf, hval, hnd⟩ := hi
  cases ws with
  | nil => exact absurd ha (by simp [World.assignHead])
  | cons lhs t =>
    cases t with
    | nil => exact absurd ha (by simp [World.assignHead])
    | cons rhs rest =>
      have htail_val : ∀ a ∈ ownedAddrs (rhs :: rest),
          (h.get a).isSome = true := by
        intro a ha'
        refine hval a ?_
        rw [ownedAddrs_cons]
        exact List.mem_append_right _ ha'
      have hnext_not : h.next ∉ ownedAddrs (rhs :: rest) := fun hm =>
        absurd (Heap.lt_next_of_get_isSome hwf (htail_val _ hm)) (lt_irrefl _)
      cases hr : rhs.pimpl with
      | none => simp [World.assignHead, Widget.assign, hr] at ha
      | some ra =>
        cases hg : h.get ra with
        | none => simp [World.assignHead, Widget.assign, hr, hg] at ha
        | some rimpl =>
          have hra_lt : ra < h.next :=
            Heap.lt_next_of_get_isSome hwf (by simp [hg])
          cases hl : lhs.pimpl with
          | none =>
            simp only [World.assignHead, Widget.assign, hr, hg, hl,
              Heap.alloc, Option.map_some, Option.map_some', Option.some.injEq] at ha
            subst ha
            have htail_nd : (ownedAddrs (rhs :: rest)).Nodup := by
              rw [ownedAddrs_cons, hl] at hnd
              exact hnd
            refine ⟨Heap.wf_alloc hwf _, ?_, ?_⟩
            · intro a ha'
              rw [show ownedAddrs ((⟨some h.next⟩ : Widget) :: rhs :: rest) =
                h.next :: ownedAddrs (rhs :: rest) from rfl] at ha'
              rcases List.mem_cons.mp ha' with ha' | ha'
              · subst ha'
                have hself := Heap.get_alloc_self h
                  (WidgetImpl.ctor junk rimpl.i rimpl.b rimpl.c rimpl.d
                    rimpl.name)
                rw [show ((⟨h.next + 1,
                  (h.next, WidgetImpl.ctor junk rimpl.i rimpl.b rimpl.c
                    rimpl.d rimpl.name) :: h.mem⟩ : Heap)).get h.next =
                  some (WidgetImpl.ctor junk rimpl.i rimpl.b rimpl.c rimpl.d
                    rimpl.name) from hself]
                rfl
              · have hlt : a < h.next :=
                  Heap.lt_next_of_get_isSome hwf (htail_val a ha')
                have halloc := Heap.get_alloc_ne h
                  (WidgetImpl.ctor junk rimpl.i rimpl.b rimpl.c rimpl.d
                    rimpl.name) (ne_of_lt hlt)
                rw [show ((⟨h.next + 1,
                  (h.next, WidgetImpl.ctor junk rimpl.i rimpl.b rimpl.c
                    rimpl.d rimpl.name) :: h.mem⟩ : Heap)).get a =
                  h.get a from halloc]
                exact htail_val a ha'
            · rw [show ownedAddrs ((⟨some h.next⟩ : Widget) :: rhs :: rest) =
                h.next :: ownedAddrs (rhs :: rest) from rfl]
              exact List.nodup_cons.mpr ⟨hnext_not, htail_nd⟩
          | some la =>
            simp only [World.assignHead, Widget.assign, hr, hg, hl,
              Heap.alloc, Option.map_some, Option.map_some', Option.some.injEq] at ha
            subst ha
            have hla_mem : la ∈ ownedAddrs (lhs :: rhs :: rest) := by
              rw [ownedAddrs_cons, hl]
              exact List.mem_append_left _ (by simp)
            have hla_lt : la < h.next :=
              Heap.lt_next_of_get_isSome hwf (hval la hla_mem)
            have hla_not_tail : la ∉ ownedAddrs (rhs :: rest) := by
              rw [ownedAddrs_cons, hl] at hnd
              exact (List.nodup_cons.mp (by simpa using hnd)).1
            have htail_nd : (ownedAddrs (rhs :: rest)).Nodup := by
              rw [ownedAddrs_cons, hl] at hnd
              exact (List.nodup_cons.mp (by simpa using hnd)).2
            refine ⟨Heap.wf_free (Heap.wf_alloc hwf _) la, ?_, ?_⟩
            · intro a ha'
              rw [show ownedAddrs ((⟨some h.next⟩ : Widget) :: rhs :: rest) =
                h.next :: ownedAddrs (rhs :: rest) from rfl] at ha'
              rcases List.mem_cons.mp ha' with ha' | ha'
              · subst ha'
                have hfree := Heap.get_free_ne
                  (h.alloc (WidgetImpl.ctor junk rimpl.i rimpl.b rimpl.c
                    rimpl.d rimpl.name)).1 (ne_of_gt hla_lt)
                have hself := Heap.get_alloc_self h
                  (WidgetImpl.ctor junk rimpl.i rimpl.b rimpl.c rimpl.d
                    rimpl.name)
                rw [show (((⟨h.next + 1,
                  (h.next, WidgetImpl.ctor junk rimpl.i rimpl.b rimpl.c
                    rimpl.d rimpl.name) :: h.mem⟩ : Heap)).free la).get
                  h.next = some (WidgetImpl.ctor junk rimpl.i rimpl.b
                    rimpl.c rimpl.d rimpl.name) from hfree.trans hself]
                rfl
              · have hlt : a < h.next :=
                  Heap.lt_next_of_get_isSome hwf (htail_val a ha')
                have hane : a ≠ la := fun he => hla_not_tail (he ▸ ha')
                have hfree := Heap.get_free_ne
                  (h.alloc (WidgetImpl.ctor junk rimpl.i rimpl.b rimpl.c
                    rimpl.d rimpl.name)).1 hane
                have halloc := Heap.get_alloc_ne h
                  (WidgetImpl.ctor junk rimpl.i rimpl.b rimpl.c rimpl.d
                    rimpl.name) (ne_of_lt hlt)
                rw [show (((⟨h.next + 1,
                  (h.next, WidgetImpl.ctor junk rimpl.i rimpl.b rimpl.c
                    rimpl.d rimpl.name) :: h.mem⟩ : Heap)).free la).get a =
                  h.get a from hfree.trans halloc]
                exact htail_val a ha'
            · rw [show ownedAddrs ((⟨some h.next⟩ : Widget) :: rhs :: rest) =
                h.next :: ownedAddrs (rhs :: rest) from rfl]
              exact List.nodup_cons.mpr ⟨hnext_not, htail_nd⟩

theorem winv_destroyHead (w : World) (hi : WInv w) : WInv w.destroyHead := by
  obtain ⟨h, ws⟩ := w
  obtain ⟨hwf, hval, hnd⟩ := hi
  cases ws with
  | nil => exact ⟨hwf, hval, hnd⟩
  | cons x rest =>
    cases hx : x.pimpl with
    | none =>
      refine ⟨?_, ?_, ?_⟩
      · rw [show (World.destroyHead ⟨h, x :: rest⟩).heap =
          Widget.destroy h x from rfl, Widget.destroy, hx]
        exact hwf
      · intro a ha
        rw [show (World.destroyHead ⟨h, x :: rest⟩).heap =
          Widget.destroy h x from rfl, Widget.destroy, hx]
        refine hval a ?_
        rw [ownedAddrs_cons, hx]
        exact List.mem_append_right _ ha
      · have hsub : ownedAddrs (x :: rest) = ownedAddrs rest := by
          rw [ownedAddrs_cons, hx]; rfl
        rw [show (World.destroyHead ⟨h, x :: rest⟩).ws = rest from rfl]
        rw [hsub] at hnd
        exact hnd
    | some a =>
      have hconsown : ownedAddrs (x :: rest) = a :: ownedAddrs rest := by
        rw [ownedAddrs_cons, hx]; rfl
      rw [hconsown] at hval hnd
      have hanotmem : a ∉ ownedAddrs rest := (List.nodup_cons.mp hnd).1
      refine ⟨?_, ?_, (List.nodup_cons.mp hnd).2⟩
      · rw [show (World.destroyHead ⟨h, x :: rest⟩).heap =
          Widget.destroy h x from rfl, Widget.destroy, hx]
        exact Heap.wf_free hwf a
      · intro b hb
        rw [show (World.destroyHead ⟨h, x :: rest⟩).heap =
          Widget.destroy h x from rfl, Widget.destroy, hx]
        have hba : b ≠ a := fun he => hanotmem (he ▸ hb)
        rw [Heap.get_free_ne h hba]
        exact hval b (List.mem_cons_of_mem a hb)

/-- C5: every operation of the source on `Widget` handles — constructing a
fresh handle (`Widget(i)`), move construction, copy assignment and
destruction — preserves the invariant that each live handle's owned pointer
is either null or points to an allocated, uniquely-owned payload (no two
handles own the same address, all owned addresses are live heap cells); the
invariant is moreover independent of how the live handles are arranged
(permutation invariance), so the head-position operation lemmas cover
operations on any live handle. -/
theorem ownership_invariant_preserved :
    (∀ (w : World) (junk : List D) (i : Int), WInv w →
      WInv (w.pushFresh junk i)) ∧
    (∀ w : World, WInv w → WInv w.moveHead) ∧
    (∀ (w w2 : World) (junk : List D), WInv w →
      w.assignHead junk = some w2 → WInv w2) ∧
    (∀ w : World, WInv w → WInv w.destroyHead) ∧
    (∀ (h : Heap) (ws ws2 : List Widget), List.Perm ws ws2 →
      WInv ⟨h, ws⟩ → WInv ⟨h, ws2⟩) :=
  ⟨winv_pushFresh, winv_moveHead, winv_assignHead, winv_destroyHead,
   winv_perm⟩

/-- C5 witness: the invariant holds after pushing a fresh handle into the
empty world, and is preserved by a move construction from that handle. -/
theorem ownership_invariant_preserved_witness :
    WInv (World.pushFresh ⟨Heap.empty, []⟩ tenZeros 0) ∧
    WInv (World.moveHead (World.pushFresh ⟨Heap.empty, []⟩ tenZeros 0)) :=
  ⟨ownership_invariant_preserved.1 ⟨Heap.empty, []⟩ tenZeros 0 (by decide),
   ownership_invariant_preserved.2.1
     (World.pushFresh ⟨Heap.empty, []⟩ tenZeros 0) (by decide)⟩
